import Mathlib

/-!
Shallow embedding of the decode half of the `marshaling` package
(`pkg/marshaling/unmarshal.go`): the versioned byte-envelope decoder
`BytesToType`, the path-directed map decoder `UnmarshalMap`, and the
path codec `Unflattened`, together with theorems about them.

Go reflection is modelled by a closed universe `Ty` of type descriptors and
`Value` of dynamic values; machine integers are `Int`/`Nat` with explicit
range checks; Go runtime panics are an explicit result constructor; the
external decoders (JSON, protobuf, MessagePack, gob) that the dispatch can
call are parameters (`Ext`), since their libraries are outside the package.
-/

namespace Marshaling

/-- Modelled from the spec: the engine-wide path separator is the dot
(spec §3: keys are dot-joined path segments); its defining constant lives
in the encode half, which is not part of the excerpt. -/
def Separator : String := "."

/-- Modelled from the spec: the single currently-supported envelope version
constant (spec §6: byte 0 is a single fixed value; the constant itself lives
in the encode half).  The concrete number is not fixed by the spec; `1` here. -/
def DefaultVersion : Nat := 1

/-- Modelled from the spec: encoding tag 0 is Empty (spec §6). -/
def ZeroEncoding : Nat := 0

/-- Modelled from the spec: encoding tag 1 is Fixed-width Big-Endian (spec §6). -/
def BigEndianEncoding : Nat := 1

/-- Modelled from the spec: encoding tag 2 is Fixed-width Little-Endian (spec §6). -/
def LittleEndianEncoding : Nat := 2

/-- Modelled from the spec: encoding tag 3 is JSON (spec §6). -/
def JSONEncoding : Nat := 3

/-- Modelled from the spec: encoding tag 4 is Protocol-Buffers (spec §6). -/
def ProtoEncoding : Nat := 4

/-- Modelled from the spec: encoding tag 5 is MessagePack (spec §6). -/
def MsgPackEncoding : Nat := 5

/-- Modelled from the spec: encoding tag 6 is the native binary container
(`encoding/gob`) (spec §6). -/
def GobEncoding : Nat := 6

/-- The `reflect.Kind` values that occur in the package. -/
inductive Kind where
  | int | int8 | int16 | int32 | int64
  | uint | uint8 | uint16 | uint32 | uint64 | uintptr
  | float32 | float64 | bool | string
  | slice | map | chan | func | iface | ptr | struct
  deriving DecidableEq, Repr

/-- Type descriptors: the closed universe of Go types the engine is applied
to (`reflect.Type`).  Struct types carry their named fields in order. -/
inductive Ty where
  | tint | tint8 | tint16 | tint32 | tint64
  | tuint | tuint8 | tuint16 | tuint32 | tuint64 | tuintptr
  | tfloat32 | tfloat64 | tbool | tstring
  | tslice (elem : Ty)
  | tmap (key val : Ty)
  | tchan (elem : Ty)
  | tfunc
  | tiface
  | tptr (elem : Ty)
  | tstruct (fields : List (String × Ty))
  deriving Repr

/-- Dynamic values (`reflect.Value` contents).  Floats are carried as raw
bit patterns, since the decoder only moves bits.  `vnil t` is the nil value
of a nillable non-pointer type (slice, map, chan, func, interface); nil
pointers are `vptr t none`. -/
inductive Value where
  | vint (n : Int) | vint8 (n : Int) | vint16 (n : Int) | vint32 (n : Int) | vint64 (n : Int)
  | vuint (n : Nat) | vuint8 (n : Nat) | vuint16 (n : Nat) | vuint32 (n : Nat) | vuint64 (n : Nat)
  | vuintptr (n : Nat)
  | vfloat32 (bits : Nat) | vfloat64 (bits : Nat)
  | vbool (b : Bool)
  | vstring (s : String)
  | vslice (elem : Ty) (xs : List Value)
  | vmap (key val : Ty) (entries : List (Value × Value))
  | vchan (elem : Ty)
  | vfunc
  | vnil (t : Ty)
  | vptr (elem : Ty) (pointee : Option Value)
  | vstruct (fields : List (String × Value))
  deriving Repr

/-- `reflect.Type.Kind()`. -/
def Ty.kind : Ty → Kind
  | .tint => .int | .tint8 => .int8 | .tint16 => .int16 | .tint32 => .int32 | .tint64 => .int64
  | .tuint => .uint | .tuint8 => .uint8 | .tuint16 => .uint16 | .tuint32 => .uint32
  | .tuint64 => .uint64 | .tuintptr => .uintptr
  | .tfloat32 => .float32 | .tfloat64 => .float64 | .tbool => .bool | .tstring => .string
  | .tslice _ => .slice | .tmap _ _ => .map | .tchan _ => .chan | .tfunc => .func
  | .tiface => .iface | .tptr _ => .ptr | .tstruct _ => .struct

/-- `reflect.Value.Kind()` (the kind of the value's dynamic type). -/
def Value.kind : Value → Kind
  | .vint _ => .int | .vint8 _ => .int8 | .vint16 _ => .int16 | .vint32 _ => .int32
  | .vint64 _ => .int64
  | .vuint _ => .uint | .vuint8 _ => .uint8 | .vuint16 _ => .uint16 | .vuint32 _ => .uint32
  | .vuint64 _ => .uint64 | .vuintptr _ => .uintptr
  | .vfloat32 _ => .float32 | .vfloat64 _ => .float64 | .vbool _ => .bool | .vstring _ => .string
  | .vslice _ _ => .slice | .vmap _ _ _ => .map | .vchan _ => .chan | .vfunc => .func
  | .vnil t => t.kind | .vptr _ _ => .ptr | .vstruct _ => .struct

/-- Source `IsNillableKind`: reports whether k represents a nillable
`reflect.Kind`. -/
def IsNillableKind (k : Kind) : Bool :=
  k = .ptr || k = .map || k = .iface || k = .chan || k = .func || k = .slice

/-- Source `IsNillableType`: reports whether t represents a nillable
`reflect.Type`. -/
def IsNillableType (t : Ty) : Bool :=
  IsNillableKind t.kind

/-- Go `strings.Split(s, ".")` for the single-character separator: splits
`s` into the list of substrings between occurrences of the dot. -/
def splitDotAux : List Char → String → List String
  | [], acc => [acc]
  | c :: cs, acc => if c = '.' then acc :: splitDotAux cs ("") else splitDotAux cs (acc.push c)

/-- `strings.Split(s, Separator)` as used by `Unflattened` and `UnmarshalMap`. -/
def goSplit (s : String) : List String := splitDotAux s.data ("")

theorem splitDotAux_ne_nil (cs : List Char) (acc : String) : splitDotAux cs acc ≠ [] := by
  induction cs generalizing acc with
  | nil => simp [splitDotAux]
  | cons c cs ih =>
    simp only [splitDotAux]
    split
    · simp
    · exact ih _

/-- A split key always has at least one segment. -/
theorem goSplit_ne_nil (s : String) : goSplit s ≠ [] := splitDotAux_ne_nil _ _

/-- Go runtime panics that the modelled code can raise. -/
inductive GoPanic where
  | sliceOutOfRange        -- slicing past the length, e.g. b[1:] on an empty slice
  | typeOnZeroValue        -- reflect.Value.Type called on the zero Value
  | fieldByNameOnNonStruct -- reflect.Value.FieldByName on a non-struct Value
  | setUnaddressable       -- reflect.Value.Set on an unaddressable Value
  | divideByZero           -- integer division by a zero element size
  | illFormedValue         -- a Value that does not inhabit its Ty (unreachable)
  deriving DecidableEq, Repr

/-- The errors produced by the package (collapsing Go error values to their
identity; the message arguments that matter are carried as data). -/
inductive Err where
  | emptyByteSlice                   -- ErrInvalidData: empty byte slice specified
  | unsupportedVersion (v : Nat)     -- unsupported version: %d
  | indirectedNil                    -- ErrInvalidData: indirected value is nil
  | fieldNotFound (seg : String) (enclosing : Ty) -- intended field-not-found error (never produced: the code panics)
  | kindMismatch (key : String) (fieldKind valueKind : Kind) -- field value has kind .., when .. is expected
  | unmatchedKind (k : Kind)         -- ErrInvalidData: unmatched map value kind
  | unmatchedEncoding                -- ErrInvalidData: unmatched encoding
  | msgpLeftover                     -- ErrInvalidData: Unmarshaled data left in buffer
  | overflow (v : Int) (t : Ty)      -- stored value (%d) overflows %s
  | unreadData                       -- unread data left in buffer
  | unexpectedEOF                    -- io.ErrUnexpectedEOF propagated out of binary.Read
  | binInvalidType (t : Ty)          -- binary.Read: invalid type %s
  | protoNotImplemented (t : Ty)     -- expected %s or %s to implement proto.Message
  | extErr (code : Nat)              -- an opaque error of an external decoder
  deriving Repr

/-- Result of `BytesToType` — the Go pair `(interface{}, error)` (with `none`
for a nil interface), or a runtime panic. -/
inductive BResult where
  | panics (p : GoPanic)
  | ret (v : Option Value) (e : Option Err)
  deriving Repr

/-- Byte order selected from the encoding tag. -/
inductive ByteOrder where
  | be | le
  deriving DecidableEq, Repr

/-- Word size in bytes of the platform, given its word width in bits
(`wordBits` is 64 on 64-bit platforms, 32 on 32-bit ones). -/
def wordSize (wordBits : Nat) : Nat := wordBits / 8

/-- Round `off` up to a multiple of `a` (Go struct field alignment). -/
def alignTo (off a : Nat) : Nat :=
  if a = 0 then off else (off + a - 1) / a * a

mutual

/-- `reflect.Type.Size()`: the in-memory size of a value of the type, used by
the decoder only to size slice elements (`iv.Type().Elem().Size()`). -/
def goSize (wordBits : Nat) : Ty → Nat
  | .tint8 | .tuint8 | .tbool => 1
  | .tint16 | .tuint16 => 2
  | .tint32 | .tuint32 | .tfloat32 => 4
  | .tint64 | .tuint64 | .tfloat64 => 8
  | .tint | .tuint | .tuintptr | .tptr _ | .tmap _ _ | .tchan _ | .tfunc => wordSize wordBits
  | .tstring | .tiface => 2 * wordSize wordBits
  | .tslice _ => 3 * wordSize wordBits
  | .tstruct fields => alignTo (goSizeFields wordBits fields 0) (max (goAlignFields wordBits fields) 1)

/-- `reflect.Type.Align()` of a type. -/
def goAlign (wordBits : Nat) : Ty → Nat
  | .tint8 | .tuint8 | .tbool => 1
  | .tint16 | .tuint16 => 2
  | .tint32 | .tuint32 | .tfloat32 => 4
  | .tint64 | .tuint64 | .tfloat64 => min 8 (wordSize wordBits)
  | .tstruct fields => max (goAlignFields wordBits fields) 1
  | _ => wordSize wordBits

/-- Struct layout: fold the aligned field offsets. -/
def goSizeFields (wordBits : Nat) : List (String × Ty) → Nat → Nat
  | [], off => off
  | (_, t) :: rest, off =>
      goSizeFields wordBits rest (alignTo off (goAlign wordBits t) + goSize wordBits t)

/-- Struct alignment: the maximum field alignment. -/
def goAlignFields (wordBits : Nat) : List (String × Ty) → Nat
  | [] => 1
  | (_, t) :: rest => max (goAlign wordBits t) (goAlignFields wordBits rest)

end

mutual

/-- `encoding/binary`'s `dataSize`/`sizeof`: the packed wire size of a type,
`none` for types `binary.Read` rejects ("invalid type").  The platform-sized
`int`, `uint` and `uintptr` kinds are rejected — which is why the source
routes them through an explicit 64-bit intermediate. -/
def binSize : Ty → Option Nat
  | .tbool | .tint8 | .tuint8 => some 1
  | .tint16 | .tuint16 => some 2
  | .tint32 | .tuint32 | .tfloat32 => some 4
  | .tint64 | .tuint64 | .tfloat64 => some 8
  | .tstruct fields => binSizeFields fields
  | _ => none

/-- Packed size of struct fields: the sum, with no padding. -/
def binSizeFields : List (String × Ty) → Option Nat
  | [] => some 0
  | (_, t) :: rest =>
      match binSize t, binSizeFields rest with
      | some a, some b => some (a + b)
      | _, _ => none

end

mutual

/-- The zero value of a type (`reflect.Zero` / a fresh `reflect.New` target). -/
def zeroVal : Ty → Value
  | .tint => .vint 0 | .tint8 => .vint8 0 | .tint16 => .vint16 0
  | .tint32 => .vint32 0 | .tint64 => .vint64 0
  | .tuint => .vuint 0 | .tuint8 => .vuint8 0 | .tuint16 => .vuint16 0
  | .tuint32 => .vuint32 0 | .tuint64 => .vuint64 0 | .tuintptr => .vuintptr 0
  | .tfloat32 => .vfloat32 0 | .tfloat64 => .vfloat64 0
  | .tbool => .vbool false
  | .tstring => .vstring ("")
  | .tslice t => .vnil (.tslice t)
  | .tmap k v => .vnil (.tmap k v)
  | .tchan t => .vnil (.tchan t)
  | .tfunc => .vnil .tfunc
  | .tiface => .vnil .tiface
  | .tptr t => .vptr t none
  | .tstruct fields => .vstruct (zeroValFields fields)

/-- Zero values of struct fields. -/
def zeroValFields : List (String × Ty) → List (String × Value)
  | [] => []
  | (n, t) :: rest => (n, zeroVal t) :: zeroValFields rest

end

/-- The innermost non-pointer type behind a chain of pointers. -/
def stripPtrs : Ty → Ty
  | .tptr t => stripPtrs t
  | t => t

/-- The pre-initialized innermost value of `BytesToType`'s allocation
prologue: slices, maps, chans and funcs get canonical empty instances
(`reflect.MakeSlice` etc.), everything else its zero value. -/
def preInit : Ty → Value
  | .tslice t => .vslice t []
  | .tmap k v => .vmap k v []
  | .tchan t => .vchan t
  | .tfunc => .vfunc
  | t => zeroVal t

/-- `pv.Elem()` right after the allocation prologue: every pointer layer
freshly allocated, the innermost value pre-initialized. -/
def zeroAlloc : Ty → Value
  | .tptr t => .vptr t (some (zeroAlloc t))
  | t => preInit t

/-- Rebuild the allocated pointer chain of a type around a decoded innermost
value. -/
def wrapAlloc : Ty → Value → Value
  | .tptr t, v => .vptr t (some (wrapAlloc t v))
  | _, v => v

/-- The unsigned integer held by a byte sequence in the given byte order. -/
def endianVal : ByteOrder → List Nat → Nat
  | .be, bs => bs.foldl (fun a b => a * 256 + b) 0
  | .le, bs => bs.reverse.foldl (fun a b => a * 256 + b) 0

/-- Reinterpret a `bits`-wide unsigned value as two's-complement signed. -/
def toSigned (bits : Nat) (u : Nat) : Int :=
  if u < 2 ^ (bits - 1) then (u : Int) else (u : Int) - 2 ^ bits

/-- `reflect.Value.OverflowInt` negated: does `v` fit a `bits`-wide signed
integer. -/
def fitsInt (bits : Nat) (v : Int) : Bool :=
  decide (-(2 ^ (bits - 1) : Int) ≤ v) && decide (v < 2 ^ (bits - 1))

/-- `reflect.Value.OverflowUint` negated: does `u` fit a `bits`-wide unsigned
integer. -/
def fitsUint (bits : Nat) (u : Nat) : Bool :=
  decide (u < 2 ^ bits)

/-- Go `string(b)` on decoded payload bytes. -/
def stringOfBytes (bs : List Nat) : String :=
  ⟨bs.map Char.ofNat⟩

mutual

/-- One fixed-width read of `encoding/binary`'s reflect decoder: consume the
packed size of the type and build the value.  Only invoked on types whose
`binSize` is defined; the catch-all is unreachable. -/
def readFixed (bo : ByteOrder) : Ty → List Nat → Value × List Nat
  | .tbool, bs => (.vbool (decide (endianVal bo (bs.take 1) ≠ 0)), bs.drop 1)
  | .tint8, bs => (.vint8 (toSigned 8 (endianVal bo (bs.take 1))), bs.drop 1)
  | .tint16, bs => (.vint16 (toSigned 16 (endianVal bo (bs.take 2))), bs.drop 2)
  | .tint32, bs => (.vint32 (toSigned 32 (endianVal bo (bs.take 4))), bs.drop 4)
  | .tint64, bs => (.vint64 (toSigned 64 (endianVal bo (bs.take 8))), bs.drop 8)
  | .tuint8, bs => (.vuint8 (endianVal bo (bs.take 1)), bs.drop 1)
  | .tuint16, bs => (.vuint16 (endianVal bo (bs.take 2)), bs.drop 2)
  | .tuint32, bs => (.vuint32 (endianVal bo (bs.take 4)), bs.drop 4)
  | .tuint64, bs => (.vuint64 (endianVal bo (bs.take 8)), bs.drop 8)
  | .tfloat32, bs => (.vfloat32 (endianVal bo (bs.take 4)), bs.drop 4)
  | .tfloat64, bs => (.vfloat64 (endianVal bo (bs.take 8)), bs.drop 8)
  | .tstruct fields, bs =>
      let r := readFixedFields bo fields bs
      (.vstruct r.1, r.2)
  | t, bs => (zeroVal t, bs)

/-- Sequential fixed-width reads of a struct's fields. -/
def readFixedFields (bo : ByteOrder) : List (String × Ty) → List Nat →
    List (String × Value) × List Nat
  | [], bs => ([], bs)
  | (n, t) :: rest, bs =>
      let r := readFixed bo t bs
      let rs := readFixedFields bo rest r.2
      ((n, r.1) :: rs.1, rs.2)

end

/-- Element-wise fixed-width reads of a decoded slice. -/
def readElems (bo : ByteOrder) (elem : Ty) : Nat → List Nat → List Value
  | 0, _ => []
  | n + 1, bs => (readFixed bo elem bs).1 :: readElems bo elem n (readFixed bo elem bs).2

/-- The `BigEndianEncoding`/`LittleEndianEncoding` arm of `BytesToType`
(unmarshal.go lines 200-253): the `iv.Kind()` dispatch that substitutes a
64-bit intermediate for `int`/`uint`/`uintptr` targets and a byte slice for
string targets, the slice resize with its element-size division, the
`binary.Read` call with its clean-EOF tolerance, the overflow narrowing
checks, and the final unread-data check. -/
def fixedDecode (wordBits : Nat) (bo : ByteOrder) (typ : Ty) (payload : List Nat) : BResult :=
  match stripPtrs typ with
  | .tstring =>
      .ret (some (wrapAlloc typ (.vstring (stringOfBytes payload)))) none
  | .tint =>
      if 8 ≤ payload.length then
        if fitsInt wordBits (toSigned 64 (endianVal bo (payload.take 8))) then
          .ret (some (wrapAlloc typ (.vint (toSigned 64 (endianVal bo (payload.take 8))))))
            (if 8 < payload.length then some .unreadData else none)
        else .ret none (some (.overflow (toSigned 64 (endianVal bo (payload.take 8))) .tint))
      else if payload.length = 0 then .ret (some (zeroAlloc typ)) none
      else .ret none (some .unexpectedEOF)
  | .tuint =>
      if 8 ≤ payload.length then
        if fitsUint wordBits (endianVal bo (payload.take 8)) then
          .ret (some (wrapAlloc typ (.vuint (endianVal bo (payload.take 8)))))
            (if 8 < payload.length then some .unreadData else none)
        else .ret none (some (.overflow (Int.ofNat (endianVal bo (payload.take 8))) .tuint))
      else if payload.length = 0 then .ret (some (zeroAlloc typ)) none
      else .ret none (some .unexpectedEOF)
  | .tuintptr =>
      if 8 ≤ payload.length then
        if fitsUint wordBits (endianVal bo (payload.take 8)) then
          .ret (some (wrapAlloc typ (.vuintptr (endianVal bo (payload.take 8)))))
            (if 8 < payload.length then some .unreadData else none)
        else .ret none (some (.overflow (Int.ofNat (endianVal bo (payload.take 8))) .tuintptr))
      else if payload.length = 0 then .ret (some (zeroAlloc typ)) none
      else .ret none (some .unexpectedEOF)
  | .tslice elem =>
      -- the resize `n := buf.Len() / elem.Size()` runs before binary.Read
      if goSize wordBits elem = 0 then .panics .divideByZero
      else if typ.kind = .ptr then .ret none (some (.binInvalidType typ))
      else
        match binSize elem with
        | none => .ret none (some (.binInvalidType typ))
        | some es =>
            .ret (some (.vslice elem
                (readElems bo elem (payload.length / goSize wordBits elem) payload)))
              (if payload.length / goSize wordBits elem * es < payload.length then
                some .unreadData else none)
  | ity =>
      if typ.kind = .ptr then .ret none (some (.binInvalidType typ))
      else
        match binSize ity with
        | none => .ret none (some (.binInvalidType typ))
        | some w =>
            if w ≤ payload.length then
              .ret (some ((readFixed bo ity (payload.take w)).1))
                (if w < payload.length then some .unreadData else none)
            else if payload.length = 0 then .ret (some (zeroAlloc typ)) none
            else .ret none (some .unexpectedEOF)

/-- The decoders of external libraries that `BytesToType` dispatches to for
the JSON, protobuf, MessagePack and gob tags, plus the interface-implements
checks on target types: parameters of the model, since the libraries are
outside the package.  Each decode function receives the payload, the target
type and the freshly allocated instance, and returns the in-place decode
result with an optional error (`msgpUnmarshal` also returns its leftover
bytes). -/
structure Ext where
  jsonDec : List Nat → Ty → Value → Value × Option Err
  protoImplElem : Ty → Bool
  protoImplPtr : Ty → Bool
  protoDec : List Nat → Ty → Value → Value × Option Err
  msgpImplElem : Ty → Bool
  msgpImplPtr : Ty → Bool
  msgpUnmarshal : List Nat → Ty → Value → Value × List Nat × Option Err
  msgpackDec : List Nat → Ty → Value → Value × Option Err
  gobDec : List Nat → Ty → Value → Value × Option Err

/-- A trivial instantiation of the external decoders, for evaluating the
model on concrete inputs that never reach them. -/
def extTriv : Ext where
  jsonDec _ _ v := (v, none)
  protoImplElem _ := false
  protoImplPtr _ := false
  protoDec _ _ v := (v, none)
  msgpImplElem _ := false
  msgpImplPtr _ := false
  msgpUnmarshal _ _ v := (v, [], none)
  msgpackDec _ _ v := (v, none)
  gobDec _ _ v := (v, none)

/-- `BytesToType(b, typ)` (unmarshal.go lines 155-296): decode a versioned
byte envelope into a new value of type `typ`.  Faithful to the source line
by line, including the unconditional `b = b[1:]` at line 170, which panics
when the input consists of the version byte alone. -/
def BytesToType (ext : Ext) (wordBits : Nat) (b : List Nat) (typ : Ty) : BResult :=
  match b with
  | [] => .ret none (some .emptyByteSlice)
  | ver :: rest =>
    if ver ≠ DefaultVersion then .ret none (some (.unsupportedVersion ver))
    else
      match rest with
      | [] => .panics .sliceOutOfRange   -- b = b[1:] with len(b) == 0
      | enc :: payload =>
        if enc = ZeroEncoding && IsNillableType typ then .ret none none
        else if enc = ZeroEncoding then .ret (some (zeroAlloc typ)) none
        else if enc = BigEndianEncoding then fixedDecode wordBits .be typ payload
        else if enc = LittleEndianEncoding then fixedDecode wordBits .le typ payload
        else if enc = JSONEncoding then
          .ret (some (ext.jsonDec payload typ (zeroAlloc typ)).1)
            (ext.jsonDec payload typ (zeroAlloc typ)).2
        else if enc = ProtoEncoding then
          if ext.protoImplElem typ || ext.protoImplPtr typ then
            .ret (some (ext.protoDec payload typ (zeroAlloc typ)).1)
              (ext.protoDec payload typ (zeroAlloc typ)).2
          else .ret none (some (.protoNotImplemented typ))
        else if enc = MsgPackEncoding then
          if ext.msgpImplElem typ || ext.msgpImplPtr typ then
            if (ext.msgpUnmarshal payload typ (zeroAlloc typ)).2.1 ≠ [] then
              .ret none (some .msgpLeftover)
            else
              .ret (some (ext.msgpUnmarshal payload typ (zeroAlloc typ)).1)
                (ext.msgpUnmarshal payload typ (zeroAlloc typ)).2.2
          else
            .ret (some (ext.msgpackDec payload typ (zeroAlloc typ)).1)
              (ext.msgpackDec payload typ (zeroAlloc typ)).2
        else if enc = GobEncoding then
          .ret (some (ext.gobDec payload typ (zeroAlloc typ)).1)
            (ext.gobDec payload typ (zeroAlloc typ)).2
        else .ret none (some .unmatchedEncoding)

/-- Association lookup by name (`reflect.Value.FieldByName`, Go map index). -/
def lookupField {α : Type} : List (String × α) → String → Option α
  | [], _ => none
  | (k, v) :: rest, n => if k = n then some v else lookupField rest n

/-- Replace the binding of an existing name (used after a successful
`lookupField`). -/
def setField {α : Type} : List (String × α) → String → α → List (String × α)
  | [], _, _ => []
  | (k, w) :: rest, n, v => if k = n then (k, v) :: rest else (k, w) :: setField rest n v

/-- Result of `UnmarshalMap` — the Go `error` together with the (in-place
mutated) target value, or a runtime panic. -/
inductive UResult where
  | panics (p : GoPanic)
  | done (v : Value) (e : Option Err)
  deriving Repr

/-- Outcome of processing one map entry against the dereferenced target: the
updated target (mutations persist even when an error is returned) or a
panic. -/
inductive WalkOut where
  | panics (p : GoPanic)
  | out (v : Value) (e : Option Err)
  deriving Repr

/-- Outcome of the per-segment pointer-dereference loop with auto-allocation
(`for fv.Kind() == reflect.Ptr { if fv.IsNil() { fv.Set(reflect.New(..)) } ..
}`): the innermost type and value, plus the rebuild of the pointer chain
around an updated innermost value. -/
inductive DerefOut where
  | panics (p : GoPanic)
  | ok (ty : Ty) (v : Value) (rebuild : Value → Value)

/-- The auto-allocating dereference loop.  Allocating into a nil pointer
requires addressability (`reflect.Value.Set`); a non-pointer target reached
by value panics there. -/
def derefAlloc (addr : Bool) : Ty → Value → DerefOut
  | .tptr ety, .vptr _ none =>
      if addr then
        match derefAlloc addr ety (zeroVal ety) with
        | .ok ity iv rb => .ok ity iv (fun v' => .vptr ety (some (rb v')))
        | r => r
      else .panics .setUnaddressable
  | .tptr ety, .vptr _ (some inner) =>
      match derefAlloc addr ety inner with
      | .ok ity iv rb => .ok ity iv (fun v' => .vptr ety (some (rb v')))
      | r => r
  | .tptr _, _ => .panics .illFormedValue
  | ty, v => .ok ty v id

/-- The field walk of `UnmarshalMap` (lines 105-116): for each path segment,
dereference pointers (allocating as needed) and resolve the segment with
`FieldByName`; at the end run the entry assignment.  A segment that does not
resolve panics: the source formats `fv.Type()` after `fv` has already been
reassigned to the invalid zero `reflect.Value`, and `reflect.Value.Type` on
the zero Value panics before the intended field-not-found error is built.
`FieldByName` on a non-struct value also panics. -/
def walkSegs (addr : Bool) (assign : Ty → Value → WalkOut) :
    List String → Ty → Value → WalkOut
  | [], ty, v => assign ty v
  | sk :: rest, ty, v =>
      match derefAlloc addr ty v with
      | .panics p => .panics p
      | .ok ity iv rebuild =>
        match ity, iv with
        | .tstruct ftys, .vstruct fvals =>
            match lookupField ftys sk with
            | none => .panics .typeOnZeroValue
            | some fty =>
                match lookupField fvals sk with
                | none => .panics .illFormedValue
                | some fval =>
                    match walkSegs addr assign rest fty fval with
                    | .out fv' e => .out (rebuild (.vstruct (setField fvals sk fv'))) e
                    | r => r
        | .tstruct _, _ => .panics .illFormedValue
        | _, _ => .panics .fieldByNameOnNonStruct

/-- The `reflect.Kind`s of the scalar case of `UnmarshalMap`'s assignment
switch (lines 120-122).  `uintptr` is absent from the source's case list. -/
def scalarKind : Kind → Bool
  | .int | .int8 | .int16 | .int32 | .int64
  | .uint | .uint8 | .uint16 | .uint32 | .uint64
  | .float32 | .float64 | .bool | .string => true
  | _ => false

/-- The bytes of a `[]byte`-valued map entry (`rmv.Bytes()`); `none` when the
value is a slice of some other element kind. -/
def sliceBytes : Value → Option (List Nat)
  | .vslice e xs =>
      if e.kind = Kind.uint8 then
        some (xs.map fun v => match v with | .vuint8 n => n | _ => 0)
      else none
  | .vnil (.tslice e) => if e.kind = Kind.uint8 then some [] else none
  | _ => none

/-- The type-directed assignment at the resolved field (lines 118-146):
exact kind match for scalars, skip for absent values, envelope delegation
for `[]byte` values, and an unmatched-kind error for everything else. -/
def assignEntry (ext : Ext) (wordBits : Nat) (mk : String) (mv : Option Value) (addr : Bool)
    (fty : Ty) (fval : Value) : WalkOut :=
  match mv with
  | none => .out fval none
  | some sv =>
      if scalarKind sv.kind then
        if sv.kind ≠ fty.kind then .out fval (some (.kindMismatch mk fty.kind sv.kind))
        else if addr then .out sv none
        else .panics .setUnaddressable
      else if sv.kind = Kind.slice then
        match sliceBytes sv with
        | some bs =>
            match BytesToType ext wordBits bs fty with
            | .panics p => .panics p
            | .ret _ (some err) => .out fval (some err)
            | .ret none none => .out fval none
            | .ret (some dv) none => if addr then .out dv none else .panics .setUnaddressable
        | none => .out fval (some (.unmatchedKind Kind.slice))
      else .out fval (some (.unmatchedKind sv.kind))

/-- The non-allocating top-level dereference of `UnmarshalMap` (lines 94-100):
`rv.Elem()` repeatedly; a nil pointer yields the invalid value, reported as
`ErrInvalidData` (indirected value is nil). -/
def derefTop : Ty → Value → Option (Ty × Value × (Value → Value))
  | .tptr ety, .vptr _ (some inner) =>
      match derefTop ety inner with
      | some (ity, iv, rb) => some (ity, iv, fun v' => Value.vptr ety (some (rb v')))
      | none => none
  | .tptr _, _ => none
  | ty, v => some (ty, v, id)

/-- The entry loop of `UnmarshalMap`: process entries in order against the
dereferenced target, stopping at the first error or panic. -/
def runEntries (ext : Ext) (wordBits : Nat) (addr : Bool) (ity : Ty) :
    List (String × Option Value) → Value → WalkOut
  | [], cur => .out cur none
  | (mk, mv) :: rest, cur =>
      match walkSegs addr (assignEntry ext wordBits mk mv addr) (goSplit mk) ity cur with
      | .panics p => .panics p
      | .out cur' (some e) => .out cur' (some e)
      | .out cur' none => runEntries ext wordBits addr ity rest cur'

/-- `UnmarshalMap(m, v)` (unmarshal.go lines 85-149) for targets of the
closed `Ty` universe (none of which implement the `MapUnmarshaler`
capability, so the generic path always runs).  `m` is the flattened mapping;
`none` entries model untyped-nil interface values (`reflect.Invalid`). -/
def UnmarshalMap (ext : Ext) (wordBits : Nat) (m : List (String × Option Value))
    (typ : Ty) (v : Value) : UResult :=
  if m.isEmpty then .done v none
  else
    match derefTop typ v with
    | none => .done v (some .indirectedNil)
    | some (ity, iv0, rebuild) =>
        match runEntries ext wordBits (decide (typ.kind = Kind.ptr)) ity m iv0 with
        | .panics p => .panics p
        | .out inner e => .done (rebuild inner) e

/-- Nested mappings (`map[string]interface{}` trees): a leaf holds one of the
caller's values (of any non-mapping dynamic type), a node a nested mapping. -/
inductive NVal (α : Type) where
  | leaf (a : α)
  | node (t : List (String × NVal α))

/-- Go map assignment `parent[k] = v`: replace the binding or add it. -/
def setNode {α : Type} : List (String × NVal α) → String → NVal α → List (String × NVal α)
  | [], k, v => [(k, v)]
  | (k', w) :: rest, k, v =>
      if k' = k then (k', v) :: rest else (k', w) :: setNode rest k v

/-- The per-key body of `Unflattened` (lines 41-51): walk/create intermediate
nested mappings for all but the last segment, assign the value at the last.
`none` models the panic of the type assertion
`sm.(map[string]interface{})` when a segment is already bound to a leaf
(and the impossible empty segment list). -/
def insertPath {α : Type} : List (String × NVal α) → List String → α →
    Option (List (String × NVal α))
  | t, [sk], v => some (setNode t sk (.leaf v))
  | t, sk :: sk2 :: rest, v =>
      match lookupField t sk with
      | none =>
          match insertPath [] (sk2 :: rest) v with
          | some sub => some (setNode t sk (.node sub))
          | none => none
      | some (.node sub) =>
          match insertPath sub (sk2 :: rest) v with
          | some sub' => some (setNode t sk (.node sub'))
          | none => none
      | some (.leaf _) => none
  | _, [], _ => none

/-- `Unflattened(m)` (unmarshal.go lines 38-54): unflatten a dotted-key
mapping into a nested mapping, one key at a time.  `none` models a panic. -/
def Unflattened {α : Type} (m : List (String × α)) : Option (List (String × NVal α)) :=
  go m []
where
  go : List (String × α) → List (String × NVal α) → Option (List (String × NVal α))
  | [], t => some t
  | (k, v) :: rest, t =>
      match insertPath t (goSplit k) v with
      | some t' => go rest t'
      | none => none

/-- Path lookup in a nested mapping, for stating what `Unflattened` built. -/
def lookupPath {α : Type} : List (String × NVal α) → List String → Option (NVal α)
  | t, [sk] => lookupField t sk
  | t, sk :: sk2 :: rest =>
      match lookupField t sk with
      | some (.node sub) => lookupPath sub (sk2 :: rest)
      | _ => none
  | _, [] => none

/-- The encoding tag selecting a byte order. -/
def encTag : ByteOrder → Nat
  | .be => BigEndianEncoding
  | .le => LittleEndianEncoding

/-- An envelope with a fixed-width tag dispatches to the fixed-width arm. -/
theorem BytesToType_fixed_tag (ext : Ext) (wordBits : Nat) (bo : ByteOrder) (typ : Ty)
    (payload : List Nat) :
    BytesToType ext wordBits (DefaultVersion :: encTag bo :: payload) typ =
      fixedDecode wordBits bo typ payload := by
  cases bo <;> rfl

/-- For a non-nillable target the allocation prologue produces the plain
zero value: such a type is not a pointer, and its own kind is not one of the
pre-initialized ones. -/
theorem zeroAlloc_of_not_nillable (typ : Ty) (h : IsNillableType typ = false) :
    zeroAlloc typ = zeroVal typ := by
  cases typ <;> simp_all [IsNillableType, IsNillableKind, Ty.kind, zeroAlloc, preInit]

/-- C3: for every input to `BytesToType`: the empty byte slice fails with
`InvalidData`, and any input whose first byte differs from the single
supported version constant fails with the unsupported-version error naming
that byte, regardless of the encoding-tag byte, the payload and the target
type. -/
theorem C3_version_gate (ext : Ext) (wordBits : Nat) (typ : Ty) :
    BytesToType ext wordBits [] typ = .ret none (some .emptyByteSlice) ∧
    ∀ (ver : Nat) (rest : List Nat), ver ≠ DefaultVersion →
      BytesToType ext wordBits (ver :: rest) typ = .ret none (some (.unsupportedVersion ver)) := by
  refine ⟨rfl, fun ver rest hv => ?_⟩
  simp [BytesToType, hv]

/-- C3 witness: the checks at the concrete inputs of the claim. -/
theorem C3_version_gate_witness :
    BytesToType extTriv 64 [] .tuint8 = .ret none (some .emptyByteSlice) ∧
    BytesToType extTriv 64 [7, 1, 2] .tuint8 = .ret none (some (.unsupportedVersion 7)) :=
  ⟨(C3_version_gate extTriv 64 .tuint8).1,
   (C3_version_gate extTriv 64 .tuint8).2 7 [1, 2] (by decide)⟩

/-- C5: contrary to the claim, a one-byte input consisting of only the
supported version byte makes `BytesToType` panic: line 170 (`b = b[1:]`)
runs unconditionally after the version byte has been stripped, and slicing
an empty slice from index 1 is out of range — the guarded Empty-tag default
at lines 166-169 is never reached with a usable buffer.  This holds for
every target type. -/
theorem C5_one_byte_panics (ext : Ext) (wordBits : Nat) (typ : Ty) :
    BytesToType ext wordBits [DefaultVersion] typ = .panics .sliceOutOfRange := rfl

/-- C4: for every Empty-tagged envelope with the supported version byte
(and any payload, which the Empty arm ignores): a nillable target type
(pointer, map, interface, chan, func, slice) yields explicit absence — a nil
value and no error — while a non-nillable target yields its zero value and
no error. -/
theorem C4_empty_tag (ext : Ext) (wordBits : Nat) (typ : Ty) (payload : List Nat) :
    (IsNillableType typ = true →
      BytesToType ext wordBits (DefaultVersion :: ZeroEncoding :: payload) typ = .ret none none) ∧
    (IsNillableType typ = false →
      BytesToType ext wordBits (DefaultVersion :: ZeroEncoding :: payload) typ =
        .ret (some (zeroVal typ)) none) := by
  constructor <;> intro h <;>
    simp [BytesToType, h, ZeroEncoding, zeroAlloc_of_not_nillable]

/-- C4 witness: an Empty-tag envelope into a byte-slice target yields
absence; into an integer target (here with a stray payload byte, which the
Empty arm ignores) yields zero. -/
theorem C4_empty_tag_witness :
    BytesToType extTriv 64 [1, 0] (.tslice .tuint8) = .ret none none ∧
    BytesToType extTriv 64 [1, 0, 9] .tint = .ret (some (.vint 0)) none :=
  ⟨(C4_empty_tag extTriv 64 (.tslice .tuint8) []).1 rfl,
   (C4_empty_tag extTriv 64 .tint [9]).2 rfl⟩

/-- C1 counterexample: the claim's own test vector fails differently.  A
fixed-BE payload holding the 64-bit value 300, decoded into an 8-bit
unsigned integer target, does not fail with an overflow error: `binary.Read`
reads a single byte (0) directly into the 8-bit target — there is no 64-bit
intermediate for sized integer kinds — and the decode fails with the
leftover-bytes error while even returning the decoded value 0 alongside it.
Likewise a 64-bit payload holding 255 does not succeed. -/
theorem C1_counterexample :
    BytesToType extTriv 64 [1, 1, 0, 0, 0, 0, 0, 0, 1, 44] .tuint8 =
      .ret (some (.vuint8 0)) (some .unreadData) ∧
    BytesToType extTriv 64 [1, 1, 0, 0, 0, 0, 0, 0, 0, 255] .tuint8 =
      .ret (some (.vuint8 0)) (some .unreadData) :=
  ⟨rfl, rfl⟩

/-- C1 (amended): under a Fixed BE/LE tag, only targets of the
platform-sized kinds `int`, `uint`, `uintptr` decode through a 64-bit
intermediate of matching signedness and then narrow to the platform width,
failing with the overflow error that reports the value and the destination
type exactly when the 64-bit value does not fit; fixed-width integer
targets are read by `binary.Read` directly at their own width with no
intermediate and no overflow check — so the 8-byte payload holding 300
decoded into an 8-bit unsigned target fails with the leftover-bytes error,
while a single byte 255 decodes into it successfully. -/
theorem C1_amended_narrowing (ext : Ext) (wordBits : Nat) (bo : ByteOrder) :
    (∀ payload : List Nat, payload.length = 8 →
      (BytesToType ext wordBits (DefaultVersion :: encTag bo :: payload) .tint =
        if fitsInt wordBits (toSigned 64 (endianVal bo payload)) = true then
          .ret (some (.vint (toSigned 64 (endianVal bo payload)))) none
        else .ret none (some (.overflow (toSigned 64 (endianVal bo payload)) .tint))) ∧
      (BytesToType ext wordBits (DefaultVersion :: encTag bo :: payload) .tuint =
        if fitsUint wordBits (endianVal bo payload) = true then
          .ret (some (.vuint (endianVal bo payload))) none
        else .ret none (some (.overflow (Int.ofNat (endianVal bo payload)) .tuint))) ∧
      (BytesToType ext wordBits (DefaultVersion :: encTag bo :: payload) .tuintptr =
        if fitsUint wordBits (endianVal bo payload) = true then
          .ret (some (.vuintptr (endianVal bo payload))) none
        else .ret none (some (.overflow (Int.ofNat (endianVal bo payload)) .tuintptr)))) ∧
    (∀ payload : List Nat, payload.length = 1 →
      BytesToType ext wordBits (DefaultVersion :: encTag bo :: payload) .tuint8 =
        .ret (some (.vuint8 (endianVal bo payload))) none) ∧
    BytesToType ext wordBits [DefaultVersion, BigEndianEncoding, 0, 0, 0, 0, 0, 0, 1, 44] .tuint8 =
      .ret (some (.vuint8 0)) (some .unreadData) ∧
    BytesToType ext wordBits [DefaultVersion, BigEndianEncoding, 255] .tuint8 =
      .ret (some (.vuint8 255)) none := by
  refine ⟨fun payload h8 => ?_, fun payload h1 => ?_, rfl, rfl⟩
  · have ht : payload.take 8 = payload := List.take_of_length_le (by omega)
    refine ⟨?_, ?_, ?_⟩ <;>
      rw [BytesToType_fixed_tag] <;>
        simp [fixedDecode, stripPtrs, wrapAlloc, h8, ht]
  · have ht : payload.take 1 = payload := List.take_of_length_le (by omega)
    rw [BytesToType_fixed_tag]
    simp [fixedDecode, stripPtrs, Ty.kind, wrapAlloc, binSize, readFixed, h1, ht]

/-- C1 witness for the amended claim: on a 32-bit platform the value
2 to the 40th overflows a `uint` target; on a 64-bit platform 300 fits a
`uint`; and a single byte 255 reads directly into a `uint8`. -/
theorem C1_amended_narrowing_witness :
    BytesToType extTriv 32 [1, 1, 0, 0, 1, 0, 0, 0, 0, 0] .tuint =
      .ret none (some (.overflow (Int.ofNat 1099511627776) .tuint)) ∧
    BytesToType extTriv 64 [1, 1, 0, 0, 0, 0, 0, 0, 1, 44] .tuint =
      .ret (some (.vuint 300)) none ∧
    BytesToType extTriv 64 [1, 1, 255] .tuint8 = .ret (some (.vuint8 255)) none :=
  ⟨((C1_amended_narrowing extTriv 32 .be).1 [0, 0, 1, 0, 0, 0, 0, 0] rfl).2.1,
   ((C1_amended_narrowing extTriv 64 .be).1 [0, 0, 0, 0, 0, 0, 1, 44] rfl).2.1,
   (C1_amended_narrowing extTriv 64 .be).2.1 [255] rfl⟩

/-- C2: under a Fixed BE/LE tag, for every target type with a defined
fixed wire width (sized integers, floats, bool, and structs of these),
a payload longer than that width decodes the width's worth of bytes and
then fails with the buffer-integrity error "unread data left in buffer". -/
theorem C2_leftover_bytes (ext : Ext) (wordBits : Nat) (bo : ByteOrder) (typ : Ty)
    (w : Nat) (payload : List Nat) (hw : binSize typ = some w) (hl : w < payload.length) :
    BytesToType ext wordBits (DefaultVersion :: encTag bo :: payload) typ =
      .ret (some ((readFixed bo typ (payload.take w)).1)) (some .unreadData) := by
  have hle : w ≤ payload.length := Nat.le_of_lt hl
  rw [BytesToType_fixed_tag]
  cases typ <;> simp only [binSize] at hw <;> try exact Option.noConfusion hw
  all_goals try cases Option.some.inj hw
  all_goals simp [fixedDecode, stripPtrs, Ty.kind, binSize, hw, hle, hl]

/-- C2 witness: the claim's vector — a Fixed BE 4-byte payload decoded into
a 2-byte (`uint16`) field fails with the buffer-integrity error. -/
theorem C2_leftover_bytes_witness :
    BytesToType extTriv 64 [1, 1, 0, 1, 2, 3] .tuint16 =
      .ret (some (.vuint16 1)) (some .unreadData) :=
  C2_leftover_bytes extTriv 64 .be .tuint16 2 [0, 1, 2, 3] rfl (by decide)

/-- The number of payload bytes one fixed-width read consumes for a
non-sequence scalar target: 8 for the platform-sized kinds routed through
the 64-bit intermediate, the exact width for the sized kinds. -/
def scalarReadWidth : Ty → Option Nat
  | .tint | .tuint | .tuintptr => some 8
  | .tbool | .tint8 | .tuint8 => some 1
  | .tint16 | .tuint16 => some 2
  | .tint32 | .tuint32 | .tfloat32 => some 4
  | .tint64 | .tuint64 | .tfloat64 => some 8
  | _ => none

/-- C6: under a Fixed BE/LE tag, a non-sequence scalar target whose payload
is shorter than its expected width splits in two: an empty payload makes
`binary.Read` end cleanly at end-of-input before consuming anything
(`io.EOF`), which the source treats as a successful decode of the
zero-valued instance; a payload that ends mid-field (at least one byte but
fewer than the width) is `io.ErrUnexpectedEOF`, a returned error. -/
theorem C6_short_read (ext : Ext) (wordBits : Nat) (bo : ByteOrder) (typ : Ty) (w : Nat)
    (hw : scalarReadWidth typ = some w) :
    (BytesToType ext wordBits [DefaultVersion, encTag bo] typ =
      .ret (some (zeroVal typ)) none) ∧
    (∀ payload : List Nat, 0 < payload.length → payload.length < w →
      BytesToType ext wordBits (DefaultVersion :: encTag bo :: payload) typ =
        .ret none (some .unexpectedEOF)) := by
  constructor
  · have hb := BytesToType_fixed_tag ext wordBits bo typ []
    rw [hb]
    cases typ <;> simp only [scalarReadWidth] at hw <;> try exact Option.noConfusion hw
    all_goals cases bo <;> rfl
  · intro payload h0 hlt
    rw [BytesToType_fixed_tag]
    cases typ <;> simp only [scalarReadWidth] at hw <;> try exact Option.noConfusion hw
    all_goals cases Option.some.inj hw
    all_goals
      have hne0 : payload.length ≠ 0 := by omega
      have hne : payload ≠ [] := by cases payload <;> simp_all
      simp [fixedDecode, stripPtrs, Ty.kind, binSize, Nat.not_le.mpr hlt, hne0, hne]

/-- C6 witness: an empty Fixed LE payload into a `uint32` decodes to zero
with no error; a 1-of-4-byte payload fails with the unexpected-EOF error. -/
theorem C6_short_read_witness :
    BytesToType extTriv 64 [1, 2] .tuint32 = .ret (some (.vuint32 0)) none ∧
    BytesToType extTriv 64 [1, 2, 5] .tuint32 = .ret none (some .unexpectedEOF) :=
  ⟨(C6_short_read extTriv 64 .le .tuint32 4 rfl).1,
   (C6_short_read extTriv 64 .le .tuint32 4 rfl).2 [5] (by decide) (by decide)⟩

/-- An optional error that can only be an opaque external-library error. -/
def extErrOnly (o : Option Err) : Prop :=
  ∀ e : Err, o = some e → ∃ c, e = Err.extErr c

/-- External decoders whose errors are their own opaque errors (as in Go,
where the json/proto/msgpack/gob libraries return their own error values,
none of which is the package's buffer or overflow error). -/
def Ext.opaqueErrs (ext : Ext) : Prop :=
  (∀ p t v, extErrOnly (ext.jsonDec p t v).2) ∧
  (∀ p t v, extErrOnly (ext.protoDec p t v).2) ∧
  (∀ p t v, extErrOnly (ext.msgpUnmarshal p t v).2.2) ∧
  (∀ p t v, extErrOnly (ext.msgpackDec p t v).2) ∧
  (∀ p t v, extErrOnly (ext.gobDec p t v).2)

/-- The trivial external decoders never fail, so their errors are vacuously
opaque. -/
theorem extTriv_opaqueErrs : Ext.opaqueErrs extTriv := by
  refine ⟨?_, ?_, ?_, ?_, ?_⟩ <;> intro p t v e he <;> exact Option.noConfusion he

/-- In the fixed-width arm, the only error ever returned together with a
decoded value is the leftover-bytes error. -/
theorem fixedDecode_ret_some_err {wordBits : Nat} {bo : ByteOrder} {typ : Ty}
    {payload : List Nat} {v : Value} {e : Err}
    (h : fixedDecode wordBits bo typ payload = .ret (some v) (some e)) :
    e = .unreadData := by
  unfold fixedDecode at h
  repeat' split at h
  all_goals simp_all

/-- C7 counterexample: the claim says a failing `BytesToType` returns the
error and no partially-usable value, but on the leftover-bytes failure the
source (line 253) returns `pv.Elem().Interface()` — the fully decoded
value — together with the error. -/
theorem C7_counterexample :
    BytesToType extTriv 64 [1, 1, 0, 0, 0, 0] .tuint16 =
      .ret (some (.vuint16 0)) (some .unreadData) := rfl

set_option maxHeartbeats 1600000 in
/-- C7 (amended): when `BytesToType` fails in the version check, the
encoding dispatch, a fixed-width read (mid-field EOF, invalid target,
overflow) or the MessagePack leftover check, it returns a nil value with
the error; but on the fixed-width leftover-bytes failure, and on errors
propagated verbatim from the external JSON/protobuf/MessagePack/gob
decoders, it returns the decoded instance alongside the error.
Equivalently: whenever a failing return carries a value, the error is the
leftover-bytes error or an external decoder's own error. -/
theorem C7_amended_error_values (ext : Ext) (hext : Ext.opaqueErrs ext) (wordBits : Nat)
    (b : List Nat) (typ : Ty) (v : Value) (e : Err)
    (h : BytesToType ext wordBits b typ = .ret (some v) (some e)) :
    e = .unreadData ∨ ∃ c, e = Err.extErr c := by
  obtain ⟨hjson, hproto, hmsgp, hmsgpack, hgob⟩ := hext
  cases b with
  | nil => simp [BytesToType] at h
  | cons ver rest =>
    cases rest with
    | nil =>
      simp only [BytesToType] at h
      split at h
      · exact Option.noConfusion (BResult.ret.inj h).1
      · exact BResult.noConfusion h
    | cons enc payload =>
      simp only [BytesToType] at h
      repeat' split at h
      all_goals try exact Option.noConfusion (BResult.ret.inj h).1
      all_goals try exact Option.noConfusion (BResult.ret.inj h).2
      all_goals try exact Or.inl (fixedDecode_ret_some_err h)
      all_goals first
        | exact Or.inr (hjson payload typ (zeroAlloc typ) e (BResult.ret.inj h).2)
        | exact Or.inr (hproto payload typ (zeroAlloc typ) e (BResult.ret.inj h).2)
        | exact Or.inr (hmsgp payload typ (zeroAlloc typ) e (BResult.ret.inj h).2)
        | exact Or.inr (hmsgpack payload typ (zeroAlloc typ) e (BResult.ret.inj h).2)
        | exact Or.inr (hgob payload typ (zeroAlloc typ) e (BResult.ret.inj h).2)

/-- C7 witness: the hypotheses of the amended claim are satisfiable — at
the leftover-bytes input the value-carrying error is indeed classified. -/
theorem C7_amended_error_values_witness :
    Err.unreadData = Err.unreadData ∨ ∃ c, Err.unreadData = Err.extErr c :=
  C7_amended_error_values extTriv extTriv_opaqueErrs 64 [1, 1, 0, 0, 0, 0] .tuint16
    (.vuint16 0) .unreadData rfl

/-- C8: contrary to the claim, a dotted key containing a segment that does
not resolve to a field makes `UnmarshalMap` panic instead of returning the
field-not-found error: at line 113-115 `fv` is reassigned by
`fv = fv.FieldByName(sk)` before the error message formats `fv.Type()`, and
`reflect.Value.Type` on the (invalid) zero Value panics.  Concretely,
decoding `{"A.B.C": 1}` into a `*struct{ A struct{ X int } }` — which has
no field `B` under `A` — panics. -/
theorem C8_missing_field_panics :
    UnmarshalMap extTriv 64 [("A.B.C", some (.vint 1))]
      (.tptr (.tstruct [("A", .tstruct [("X", .tint)])]))
      (.vptr (.tstruct [("A", .tstruct [("X", .tint)])])
        (some (.vstruct [("A", .vstruct [("X", .vint 0)])]))) =
      .panics .typeOnZeroValue := rfl

/-- Replacing a binding by the value it already has is the identity. -/
theorem setField_of_lookupField {α : Type} (l : List (String × α)) (n : String) (v : α)
    (h : lookupField l n = some v) : setField l n v = l := by
  induction l with
  | nil => simp [lookupField] at h
  | cons kv rest ih =>
    obtain ⟨k, w⟩ := kv
    by_cases hk : k = n
    · subst hk
      simp [lookupField] at h
      simp [setField, h]
    · simp [lookupField, hk] at h
      simp [setField, hk, ih h]

/-- C9: for a map entry whose value has a scalar kind (signed or unsigned
integer of any width, float, bool, string), `UnmarshalMap` requires the
resolved field's kind to match exactly: on mismatch it fails with the
kind-mismatch error naming both kinds and leaves the target unchanged (so a
string value into an integer field, or a float into an int, is rejected
with no implicit coercion); on an exact match the value is assigned
directly to the field. -/
theorem C9_scalar_kind_check (ext : Ext) (wordBits : Nat) (fname : String)
    (flds : List (String × Ty)) (fvals : List (String × Value))
    (fty : Ty) (cur : Value) (sv : Value)
    (hsplit : goSplit fname = [fname])
    (hf : lookupField flds fname = some fty)
    (hv : lookupField fvals fname = some cur)
    (hs : scalarKind sv.kind = true) :
    (sv.kind ≠ fty.kind →
      UnmarshalMap ext wordBits [(fname, some sv)] (.tptr (.tstruct flds))
          (.vptr (.tstruct flds) (some (.vstruct fvals))) =
        .done (.vptr (.tstruct flds) (some (.vstruct fvals)))
          (some (.kindMismatch fname fty.kind sv.kind))) ∧
    (sv.kind = fty.kind →
      UnmarshalMap ext wordBits [(fname, some sv)] (.tptr (.tstruct flds))
          (.vptr (.tstruct flds) (some (.vstruct fvals))) =
        .done (.vptr (.tstruct flds) (some (.vstruct (setField fvals fname sv)))) none) := by
  have haddr : (decide (Ty.kind (Ty.tptr (Ty.tstruct flds)) = Kind.ptr)) = true := rfl
  constructor
  · intro hne
    simp [UnmarshalMap, derefTop, runEntries, hsplit, walkSegs, derefAlloc, assignEntry,
      hf, hv, hs, hne, haddr, setField_of_lookupField fvals fname cur hv]
  · intro heq
    rw [heq] at hs
    simp [UnmarshalMap, derefTop, runEntries, hsplit, walkSegs, derefAlloc, assignEntry,
      hf, hv, hs, heq, haddr]

/-- C9 witness: a string-valued entry into an `int` field fails with the
kind-mismatch error naming both kinds; an `int`-valued entry into the same
field is assigned directly. -/
theorem C9_scalar_kind_check_witness :
    UnmarshalMap extTriv 64 [("F", some (.vstring ("x")))] (.tptr (.tstruct [("F", .tint)]))
        (.vptr (.tstruct [("F", .tint)]) (some (.vstruct [("F", .vint 0)]))) =
      .done (.vptr (.tstruct [("F", .tint)]) (some (.vstruct [("F", .vint 0)])))
        (some (.kindMismatch ("F") .int .string)) ∧
    UnmarshalMap extTriv 64 [("F", some (.vint 7))] (.tptr (.tstruct [("F", .tint)]))
        (.vptr (.tstruct [("F", .tint)]) (some (.vstruct [("F", .vint 0)]))) =
      .done (.vptr (.tstruct [("F", .tint)]) (some (.vstruct [("F", .vint 7)]))) none :=
  ⟨(C9_scalar_kind_check extTriv 64 ("F") [("F", .tint)] [("F", .vint 0)] .tint (.vint 0)
      (.vstring ("x")) rfl rfl rfl rfl).1 (by decide),
   (C9_scalar_kind_check extTriv 64 ("F") [("F", .tint)] [("F", .vint 0)] .tint (.vint 0)
      (.vint 7) rfl rfl rfl rfl).2 rfl⟩

/-- Two segment paths neither of which is a prefix of the other (the
collision-freedom of two flattened keys). -/
def NonPre (p q : List String) : Prop := ¬ p <+: q ∧ ¬ q <+: p

theorem NonPre.symm {p q : List String} (h : NonPre p q) : NonPre q p := ⟨h.2, h.1⟩

instance (p q : List String) : Decidable (NonPre p q) :=
  inferInstanceAs (Decidable (¬ p <+: q ∧ ¬ q <+: p))

theorem NonPre.of_cons {a : String} {p q : List String} (h : NonPre (a :: p) (a :: q)) :
    NonPre p q :=
  ⟨fun hp => h.1 (List.cons_prefix_cons.mpr ⟨rfl, hp⟩),
   fun hq => h.2 (List.cons_prefix_cons.mpr ⟨rfl, hq⟩)⟩

/-- Nothing is bound in the empty nested mapping. -/
theorem lookupPath_nil {α : Type} (q : List String) :
    lookupPath ([] : List (String × NVal α)) q = none := by
  cases q with
  | nil => rfl
  | cons x xs => cases xs <;> simp [lookupPath, lookupField]

/-- Go map assignment then index at the same key. -/
theorem lookupField_setNode_self {α : Type} (t : List (String × NVal α)) (k : String)
    (v : NVal α) : lookupField (setNode t k v) k = some v := by
  induction t with
  | nil => simp [setNode, lookupField]
  | cons kv rest ih =>
    obtain ⟨k0, w⟩ := kv
    by_cases hk : k0 = k
    · subst hk
      simp [setNode, lookupField]
    · simp [setNode, lookupField, hk, ih]

/-- Go map assignment leaves other keys unchanged. -/
theorem lookupField_setNode_other {α : Type} (t : List (String × NVal α)) (k k' : String)
    (v : NVal α) (h : k' ≠ k) :
    lookupField (setNode t k v) k' = lookupField t k' := by
  induction t with
  | nil => simp [setNode, lookupField, Ne.symm h]
  | cons kv rest ih =>
    obtain ⟨k0, w⟩ := kv
    by_cases hk : k0 = k
    · subst hk
      simp [setNode, lookupField, Ne.symm h]
    · simp [setNode, lookupField, hk, ih]

/-- `insertPath t p` cannot hit the leaf-collision panic: along every proper
prefix of `p`, the tree binds either nothing or a nested mapping. -/
def Compat {α : Type} : List (String × NVal α) → List String → Prop
  | _, [] => False
  | _, [_] => True
  | t, sk :: sk2 :: rest =>
      match lookupField t sk with
      | none => True
      | some (.node sub) => Compat sub (sk2 :: rest)
      | some (.leaf _) => False

/-- Every nonempty path is insertable into the empty mapping. -/
theorem compat_nil {α : Type} (p : List String) (hp : p ≠ []) :
    Compat ([] : List (String × NVal α)) p := by
  cases p with
  | nil => exact absurd rfl hp
  | cons x rest =>
    cases rest with
    | nil => trivial
    | cons y r => simp [Compat, lookupField]

/-- Inversion of a successful multi-segment insertion: either the head
segment was unbound and a fresh subtree was built, or it was bound to a
nested mapping that was extended. -/
theorem insertPath_cons_inv {α : Type} (t : List (String × NVal α)) (sk sk2 : String)
    (r : List String) (v : α) (t' : List (String × NVal α))
    (h : insertPath t (sk :: sk2 :: r) v = some t') :
    (∃ sub, lookupField t sk = none ∧
      insertPath ([] : List (String × NVal α)) (sk2 :: r) v = some sub ∧
      t' = setNode t sk (.node sub)) ∨
    (∃ sub sub', lookupField t sk = some (.node sub) ∧
      insertPath sub (sk2 :: r) v = some sub' ∧ t' = setNode t sk (.node sub')) := by
  simp only [insertPath] at h
  cases hl : lookupField t sk with
  | none =>
    simp only [hl] at h
    cases hs : insertPath ([] : List (String × NVal α)) (sk2 :: r) v with
    | none =>
      simp only [hs] at h
      exact Option.noConfusion h
    | some sub =>
      simp only [hs, Option.some.injEq] at h
      exact Or.inl ⟨sub, rfl, rfl, h.symm⟩
  | some nv =>
    cases nv with
    | leaf a =>
      simp only [hl] at h
      exact Option.noConfusion h
    | node sub =>
      simp only [hl] at h
      cases hs : insertPath sub (sk2 :: r) v with
      | none =>
        simp only [hs] at h
        exact Option.noConfusion h
      | some sub' =>
        simp only [hs, Option.some.injEq] at h
        exact Or.inr ⟨sub, sub', rfl, hs, h.symm⟩

/-- Insertion of a compatible path succeeds (no collision panic). -/
theorem insertPath_ok {α : Type} (p : List String) (t : List (String × NVal α)) (v : α)
    (hc : Compat t p) : ∃ t', insertPath t p v = some t' := by
  induction p generalizing t with
  | nil => exact absurd hc (by simp [Compat])
  | cons sk rest ih =>
    cases rest with
    | nil => exact ⟨_, rfl⟩
    | cons sk2 r =>
      cases hl : lookupField t sk with
      | none =>
        obtain ⟨sub, hsub⟩ := ih [] (compat_nil _ (by simp))
        exact ⟨setNode t sk (.node sub), by simp [insertPath, hl, hsub]⟩
      | some nv =>
        cases nv with
        | leaf a => simp [Compat, hl] at hc
        | node sub =>
          have hc' : Compat sub (sk2 :: r) := by simpa [Compat, hl] using hc
          obtain ⟨sub', hsub⟩ := ih sub hc'
          exact ⟨setNode t sk (.node sub'), by simp [insertPath, hl, hsub]⟩

/-- After inserting `(p, v)`, the path `p` is bound to the leaf `v`. -/
theorem lookupPath_insertPath_self {α : Type} (p : List String)
    (t t' : List (String × NVal α)) (v : α) (h : insertPath t p v = some t') :
    lookupPath t' p = some (.leaf v) := by
  induction p generalizing t t' with
  | nil => simp [insertPath] at h
  | cons sk rest ih =>
    cases rest with
    | nil =>
      simp only [insertPath, Option.some.injEq] at h
      subst h
      simp [lookupPath, lookupField_setNode_self]
    | cons sk2 r =>
      rcases insertPath_cons_inv t sk sk2 r v t' h with
        ⟨sub, hl, hs, rfl⟩ | ⟨sub, sub', hl, hs, rfl⟩ <;>
      simp [lookupPath, lookupField_setNode_self, ih _ _ hs]

/-- Inserting at `p` does not change the binding of any path that is
prefix-unrelated to `p`. -/
theorem lookupPath_insertPath_of_nonpre {α : Type} (p : List String) :
    ∀ (q : List String) (t t' : List (String × NVal α)) (v : α),
      insertPath t p v = some t' → NonPre p q → lookupPath t' q = lookupPath t q := by
  induction p with
  | nil => intro q t t' v h _; simp [insertPath] at h
  | cons sk rest ih =>
    intro q t t' v h hnp
    cases rest with
    | nil =>
      simp only [insertPath, Option.some.injEq] at h
      subst h
      cases q with
      | nil => simp [lookupPath]
      | cons qk qr =>
        by_cases hqk : qk = sk
        · subst hqk
          exfalso
          cases qr with
          | nil => exact hnp.1 ⟨[], rfl⟩
          | cons a b => exact hnp.1 ⟨a :: b, rfl⟩
        · cases qr with
          | nil => simp [lookupPath, lookupField_setNode_other t sk qk _ hqk]
          | cons q2 qr2 => simp [lookupPath, lookupField_setNode_other t sk qk _ hqk]
    | cons sk2 r =>
      rcases insertPath_cons_inv t sk sk2 r v t' h with
        ⟨sub, hl, hs, rfl⟩ | ⟨sub, sub', hl, hs, rfl⟩
      · cases q with
        | nil => simp [lookupPath]
        | cons qk qr =>
          by_cases hqk : qk = sk
          · subst hqk
            cases qr with
            | nil => exact absurd ⟨sk2 :: r, rfl⟩ hnp.2
            | cons q2 qr2 =>
              have hrec := ih (q2 :: qr2) [] sub v hs (hnp.of_cons)
              rw [lookupPath_nil] at hrec
              simp [lookupPath, lookupField_setNode_self, hl, hrec]
          · cases qr with
            | nil => simp [lookupPath, lookupField_setNode_other t sk qk _ hqk]
            | cons q2 qr2 => simp [lookupPath, lookupField_setNode_other t sk qk _ hqk]
      · cases q with
        | nil => simp [lookupPath]
        | cons qk qr =>
          by_cases hqk : qk = sk
          · subst hqk
            cases qr with
            | nil => exact absurd ⟨sk2 :: r, rfl⟩ hnp.2
            | cons q2 qr2 =>
              have hrec := ih (q2 :: qr2) sub sub' v hs (hnp.of_cons)
              simp [lookupPath, lookupField_setNode_self, hl, hrec]
          · cases qr with
            | nil => simp [lookupPath, lookupField_setNode_other t sk qk _ hqk]
            | cons q2 qr2 => simp [lookupPath, lookupField_setNode_other t sk qk _ hqk]

/-- Inserting a prefix-unrelated path preserves insertability. -/
theorem compat_insertPath {α : Type} (p : List String) :
    ∀ (q : List String) (t t' : List (String × NVal α)) (v : α),
      insertPath t q v = some t' → NonPre p q → Compat t p → Compat t' p := by
  induction p with
  | nil => intro q t t' v _ _ hc; exact absurd hc (by simp [Compat])
  | cons x rest ih =>
    intro q t t' v h hnp hc
    cases rest with
    | nil => trivial
    | cons p2 pr =>
      cases q with
      | nil => simp [insertPath] at h
      | cons qk qr =>
        cases qr with
        | nil =>
          simp only [insertPath, Option.some.injEq] at h
          subst h
          by_cases hqk : x = qk
          · subst hqk
            exact absurd ⟨p2 :: pr, rfl⟩ hnp.2
          · simpa only [Compat, lookupField_setNode_other t qk x _ hqk] using hc
        | cons q2 qr2 =>
          rcases insertPath_cons_inv t qk q2 qr2 v t' h with
            ⟨sub, hl, hs, rfl⟩ | ⟨sub, sub', hl, hs, rfl⟩
          · by_cases hqk : x = qk
            · subst hqk
              have hsub : Compat sub (p2 :: pr) :=
                ih (q2 :: qr2) [] sub v hs (hnp.of_cons) (compat_nil _ (by simp))
              simp only [Compat, lookupField_setNode_self, hsub]
            · simpa only [Compat, lookupField_setNode_other t qk x _ hqk] using hc
          · by_cases hqk : x = qk
            · subst hqk
              have hc' : Compat sub (p2 :: pr) := by simpa only [Compat, hl] using hc
              have hsub : Compat sub' (p2 :: pr) :=
                ih (q2 :: qr2) sub sub' v hs (hnp.of_cons) hc'
              simp only [Compat, lookupField_setNode_self, hsub]
            · simpa only [Compat, lookupField_setNode_other t qk x _ hqk] using hc

/-- Insertion never demotes a nested mapping that is not along the inserted
path's own binding: any path that the inserted path does not prefix and that
was bound to a nested mapping is still bound to a nested mapping. -/
theorem lookupPath_node_insertPath {α : Type} (p : List String) :
    ∀ (q : List String) (t t' : List (String × NVal α)) (v : α)
      (sub0 : List (String × NVal α)),
      insertPath t p v = some t' → lookupPath t q = some (.node sub0) → ¬ p <+: q →
      ∃ sub1, lookupPath t' q = some (.node sub1) := by
  induction p with
  | nil => intro q t t' v sub0 h _ _; simp [insertPath] at h
  | cons sk rest ih =>
    intro q t t' v sub0 h hq hp
    cases rest with
    | nil =>
      simp only [insertPath, Option.some.injEq] at h
      subst h
      cases q with
      | nil => simp [lookupPath] at hq
      | cons qk qr =>
        by_cases hqk : qk = sk
        · subst hqk
          exfalso
          cases qr with
          | nil => exact hp ⟨[], rfl⟩
          | cons a b => exact hp ⟨a :: b, rfl⟩
        · refine ⟨sub0, ?_⟩
          cases qr with
          | nil =>
            simpa [lookupPath, lookupField_setNode_other t sk qk _ hqk] using hq
          | cons q2 qr2 =>
            simpa [lookupPath, lookupField_setNode_other t sk qk _ hqk] using hq
    | cons sk2 r =>
      rcases insertPath_cons_inv t sk sk2 r v t' h with
        ⟨sub, hl, hs, rfl⟩ | ⟨sub, sub', hl, hs, rfl⟩
      · cases q with
        | nil => simp [lookupPath] at hq
        | cons qk qr =>
          by_cases hqk : qk = sk
          · subst hqk
            exfalso
            cases qr with
            | nil => simp [lookupPath, hl] at hq
            | cons q2 qr2 => simp [lookupPath, hl] at hq
          · refine ⟨sub0, ?_⟩
            cases qr with
            | nil =>
              simpa [lookupPath, lookupField_setNode_other t sk qk _ hqk] using hq
            | cons q2 qr2 =>
              simpa [lookupPath, lookupField_setNode_other t sk qk _ hqk] using hq
      · cases q with
        | nil => simp [lookupPath] at hq
        | cons qk qr =>
          by_cases hqk : qk = sk
          · subst hqk
            cases qr with
            | nil => exact ⟨sub', by simp [lookupPath, lookupField_setNode_self]⟩
            | cons q2 qr2 =>
              have hq' : lookupPath sub (q2 :: qr2) = some (.node sub0) := by
                simpa [lookupPath, hl] using hq
              have hp' : ¬ (sk2 :: r) <+: (q2 :: qr2) := by
                intro hh
                exact hp (List.cons_prefix_cons.mpr ⟨rfl, hh⟩)
              obtain ⟨sub1, h1⟩ := ih (q2 :: qr2) sub sub' v sub0 hs hq' hp'
              exact ⟨sub1, by simp [lookupPath, lookupField_setNode_self, h1]⟩
          · refine ⟨sub0, ?_⟩
            cases qr with
            | nil =>
              simpa [lookupPath, lookupField_setNode_other t sk qk _ hqk] using hq
            | cons q2 qr2 =>
              simpa [lookupPath, lookupField_setNode_other t sk qk _ hqk] using hq

/-- After inserting `(p, v)`, every nonempty proper prefix of `p` is bound
to a nested mapping. -/
theorem lookupPath_node_of_prefix_insertPath {α : Type} (p : List String) :
    ∀ (q : List String) (t t' : List (String × NVal α)) (v : α),
      insertPath t p v = some t' → q ≠ [] → q <+: p → q ≠ p →
      ∃ sub, lookupPath t' q = some (.node sub) := by
  induction p with
  | nil => intro q t t' v h _ _ _; simp [insertPath] at h
  | cons sk rest ih =>
    intro q t t' v h hq1 hq2 hq3
    cases rest with
    | nil =>
      exfalso
      cases q with
      | nil => exact hq1 rfl
      | cons x xs =>
        obtain ⟨hx, hxs⟩ := List.cons_prefix_cons.mp hq2
        subst hx
        rw [List.prefix_nil.mp hxs] at hq3
        exact hq3 rfl
    | cons sk2 r =>
      cases q with
      | nil => exact absurd rfl hq1
      | cons x xs =>
        obtain ⟨hx, hxs⟩ := List.cons_prefix_cons.mp hq2
        subst hx
        rcases insertPath_cons_inv t x sk2 r v t' h with
          ⟨sub, hl, hs, rfl⟩ | ⟨sub, sub', hl, hs, rfl⟩
        · cases xs with
          | nil => exact ⟨sub, by simp [lookupPath, lookupField_setNode_self]⟩
          | cons q2 qr2 =>
            have hne : (q2 :: qr2) ≠ (sk2 :: r) := by
              intro hh
              exact hq3 (by rw [hh])
            obtain ⟨sub1, h1⟩ := ih (q2 :: qr2) [] sub v hs (by simp) hxs hne
            exact ⟨sub1, by simp [lookupPath, lookupField_setNode_self, h1]⟩
        · cases xs with
          | nil => exact ⟨sub', by simp [lookupPath, lookupField_setNode_self]⟩
          | cons q2 qr2 =>
            have hne : (q2 :: qr2) ≠ (sk2 :: r) := by
              intro hh
              exact hq3 (by rw [hh])
            obtain ⟨sub1, h1⟩ := ih (q2 :: qr2) sub sub' v hs (by simp) hxs hne
            exact ⟨sub1, by simp [lookupPath, lookupField_setNode_self, h1]⟩

/-- Invariant of `Unflattened`'s key loop: starting from a tree into which
every remaining key path is insertable, the loop succeeds, binds every key's
value at its path, creates nested mappings at all proper prefixes, leaves
unrelated paths untouched, and never demotes existing nested mappings that
no key path prefixes. -/
theorem unflattened_go_spec {α : Type} (m : List (String × α)) :
    ∀ t : List (String × NVal α),
      (∀ kv ∈ m, Compat t (goSplit kv.1)) →
      m.Pairwise (fun a b => NonPre (goSplit a.1) (goSplit b.1)) →
      ∃ t', Unflattened.go m t = some t' ∧
        (∀ kv ∈ m, lookupPath t' (goSplit kv.1) = some (.leaf kv.2)) ∧
        (∀ kv ∈ m, ∀ q, q ≠ [] → q <+: goSplit kv.1 → q ≠ goSplit kv.1 →
          ∃ sub, lookupPath t' q = some (.node sub)) ∧
        (∀ q, (∀ kv ∈ m, NonPre (goSplit kv.1) q) → lookupPath t' q = lookupPath t q) ∧
        (∀ q sub0, lookupPath t q = some (.node sub0) →
          (∀ kv ∈ m, ¬ goSplit kv.1 <+: q) →
          ∃ sub1, lookupPath t' q = some (.node sub1)) := by
  induction m with
  | nil =>
    intro t _ _
    exact ⟨t, rfl, by simp, by simp, fun q _ => rfl, fun q sub0 hq _ => ⟨sub0, hq⟩⟩
  | cons kv rest ih =>
    intro t hcomp hpair
    obtain ⟨k, v⟩ := kv
    obtain ⟨t1, ht1⟩ := insertPath_ok (goSplit k) t v (hcomp (k, v) (by simp))
    have hpair' := List.pairwise_cons.mp hpair
    have hcomp1 : ∀ kv' ∈ rest, Compat t1 (goSplit kv'.1) := fun kv' hm =>
      compat_insertPath (goSplit kv'.1) (goSplit k) t t1 v ht1
        ((hpair'.1 kv' hm).symm) (hcomp kv' (List.mem_cons_of_mem _ hm))
    obtain ⟨t2, hgo, hleaf2, hnode2, hpres2, hstay2⟩ := ih t1 hcomp1 hpair'.2
    refine ⟨t2, ?_, ?_, ?_, ?_, ?_⟩
    · simp [Unflattened.go, ht1, hgo]
    · intro kv' hm
      rcases List.mem_cons.mp hm with heq | hm'
      · subst heq
        have hl1 := lookupPath_insertPath_self (goSplit k) t t1 v ht1
        have hpr : lookupPath t2 (goSplit k) = lookupPath t1 (goSplit k) :=
          hpres2 (goSplit k) (fun kv'' hm'' => (hpair'.1 kv'' hm'').symm)
        simpa [hpr] using hl1
      · exact hleaf2 kv' hm'
    · intro kv' hm q hq1 hq2 hq3
      rcases List.mem_cons.mp hm with heq | hm'
      · subst heq
        obtain ⟨sub, hsub⟩ :=
          lookupPath_node_of_prefix_insertPath (goSplit k) q t t1 v ht1 hq1 hq2 hq3
        exact hstay2 q sub hsub (fun kv'' hm'' hpre =>
          (hpair'.1 kv'' hm'').2 (hpre.trans hq2))
      · exact hnode2 kv' hm' q hq1 hq2 hq3
    · intro q hnr
      have h2 := hpres2 q (fun kv'' hm'' => hnr kv'' (List.mem_cons_of_mem _ hm''))
      have h1 := lookupPath_insertPath_of_nonpre (goSplit k) q t t1 v ht1
        (hnr (k, v) (by simp))
      rw [h2, h1]
    · intro q sub0 hq hnp
      obtain ⟨sub1, h1⟩ := lookupPath_node_insertPath (goSplit k) q t t1 v sub0 ht1 hq
        (hnp (k, v) (by simp))
      exact hstay2 q sub1 h1 (fun kv'' hm'' => hnp kv'' (List.mem_cons_of_mem _ hm''))

/-- C10: for every flattened mapping whose dot-separated keys are
collision-free — no key's segment path is a prefix of another's (which rules
out both duplicate keys and proper-prefix collisions) — `Unflattened`
terminates without panicking on the `sm.(map[string]interface{})` type
assertion and returns a nested mapping in which every input value is bound
as a leaf at exactly its key's segment path, with a nested mapping created
at every nonempty proper prefix of every key's path. -/
theorem C10_unflattened_correct (α : Type) (m : List (String × α))
    (hp : m.Pairwise (fun a b => NonPre (goSplit a.1) (goSplit b.1))) :
    ∃ t, Unflattened m = some t ∧
      (∀ kv ∈ m, lookupPath t (goSplit kv.1) = some (.leaf kv.2)) ∧
      (∀ kv ∈ m, ∀ q, q ≠ [] → q <+: goSplit kv.1 → q ≠ goSplit kv.1 →
        ∃ sub, lookupPath t q = some (.node sub)) := by
  obtain ⟨t, hgo, hleaf, hnode, _, _⟩ :=
    unflattened_go_spec m [] (fun kv _ => compat_nil _ (goSplit_ne_nil _)) hp
  exact ⟨t, hgo, hleaf, hnode⟩

/-- C10 witness: the mapping with keys "a.b", "a.c", "d" unflattens without
panic, binds the three values at their paths, and creates the intermediate
mapping at "a". -/
theorem C10_unflattened_correct_witness :
    ∃ t, Unflattened [("a.b", (1 : Nat)), ("a.c", 2), ("d", 3)] = some t ∧
      (∀ kv ∈ [("a.b", (1 : Nat)), ("a.c", 2), ("d", 3)],
        lookupPath t (goSplit kv.1) = some (.leaf kv.2)) ∧
      (∀ kv ∈ [("a.b", (1 : Nat)), ("a.c", 2), ("d", 3)], ∀ q, q ≠ [] →
        q <+: goSplit kv.1 → q ≠ goSplit kv.1 →
        ∃ sub, lookupPath t q = some (.node sub)) :=
  C10_unflattened_correct Nat [("a.b", 1), ("a.c", 2), ("d", 3)] (by decide)

end Marshaling
